/-
  Verification of the Pokedex type-effectiveness engine.

  Shallow embedding of `src/client/src/lib/pokeapi.ts` and
  `src/client/src/pages/home.tsx` (the type chart, the defensive matchup
  calculator, the offensive strength deriver, team roster operations and
  the team comparator).

  JavaScript `Record<string, number>` values are modelled as association
  lists from `String` to `JsNum`, where `JsNum.nan` stands for the IEEE
  NaN produced when JavaScript multiplies `undefined` by a number (the
  read-modify-write `matchups[t] *= f` on a missing key).  All numbers
  appearing in the chart logic are exact dyadic rationals, so finite
  values are carried as `ℚ`.
-/
import Mathlib

set_option maxHeartbeats 1000000

/- Batteries marks the `Rat` field operations `@[irreducible]`, which blocks
`decide` from evaluating concrete multipliers; the kernel itself reduces them
fine, so restore the default transparency for this development. -/
attribute [local semireducible] Rat.mul Rat.inv Rat.add Rat.sub

namespace Pokedex

/-! ### Data model (pokeapi.ts) -/

/-- `{ name, url }` sub-record of the API `types` entries. -/
structure NamedAPIResource where
  name : String
  url : String
deriving DecidableEq, Repr

/-- One element of `Pokemon.types`: `{ slot, type: { name, url } }`. -/
structure PokemonTypeSlot where
  slot : Nat
  type : NamedAPIResource
deriving DecidableEq, Repr

/-- The `Pokemon` record, restricted to the fields the analysed logic
reads (`id`, `name`, `types`); `sprites`, `height`, `weight` and `stats`
are presentation-only and never inspected by the computations below. -/
structure Pokemon where
  id : Nat
  name : String
  types : List PokemonTypeSlot
deriving DecidableEq, Repr

/-! ### Type chart (type-chart.ts) -/

/-- `TypeEffectiveness = { double: string[]; half: string[]; zero: string[] }`. -/
structure TypeEffectiveness where
  double : List String
  half : List String
  zero : List String
deriving DecidableEq, Repr

/-- `TYPE_CHART`, an ordered record literal: the defensive chart, one entry
per canonical type, in source order. -/
def TYPE_CHART : List (String × TypeEffectiveness) := [
  ("normal", ⟨["fighting"], [], ["ghost"]⟩),
  ("fire", ⟨["water", "ground", "rock"], ["fire", "grass", "ice", "bug", "steel", "fairy"], []⟩),
  ("water", ⟨["electric", "grass"], ["fire", "water", "ice", "steel"], []⟩),
  ("electric", ⟨["ground"], ["electric", "flying", "steel"], []⟩),
  ("grass", ⟨["fire", "ice", "poison", "flying", "bug"], ["water", "electric", "grass", "ground"], []⟩),
  ("ice", ⟨["fire", "fighting", "rock", "steel"], ["ice"], []⟩),
  ("fighting", ⟨["flying", "psychic", "fairy"], ["bug", "rock", "dark"], []⟩),
  ("poison", ⟨["ground", "psychic"], ["grass", "fighting", "poison", "bug", "fairy"], []⟩),
  ("ground", ⟨["water", "grass", "ice"], ["poison", "rock"], ["electric"]⟩),
  ("flying", ⟨["electric", "ice", "rock"], ["grass", "fighting", "bug"], ["ground"]⟩),
  ("psychic", ⟨["bug", "ghost", "dark"], ["fighting", "psychic"], []⟩),
  ("bug", ⟨["fire", "flying", "rock"], ["grass", "fighting", "ground"], []⟩),
  ("rock", ⟨["water", "grass", "fighting", "ground", "steel"], ["normal", "fire", "poison", "flying"], []⟩),
  ("ghost", ⟨["ghost", "dark"], ["poison", "bug"], ["normal", "fighting"]⟩),
  ("dragon", ⟨["ice", "dragon", "fairy"], ["fire", "water", "electric", "grass"], []⟩),
  ("steel", ⟨["fire", "fighting", "ground"], ["normal", "grass", "ice", "flying", "psychic", "bug", "rock", "dragon", "steel", "fairy"], ["poison"]⟩),
  ("dark", ⟨["fighting", "bug", "fairy"], ["ghost", "dark"], ["psychic"]⟩),
  ("fairy", ⟨["poison", "steel"], ["fighting", "bug", "dark"], ["dragon"]⟩)]

/-- `Object.keys(TYPE_CHART)`: the canonical type identifiers, in chart order. -/
def allTypes : List String := TYPE_CHART.map (fun p => p.1)

/-- `TYPE_CHART[k]`: record lookup by key. -/
def lookupChart (k : String) : Option TypeEffectiveness :=
  (TYPE_CHART.find? (fun p => p.1 == k)).map (fun p => p.2)

/-- `String.prototype.toLowerCase()` (character-wise lower-casing; the
identifiers in play are ASCII). -/
def jsToLower (s : String) : String := ⟨s.data.map Char.toLower⟩

/-! ### JavaScript number / record model -/

/-- A JavaScript number as produced by this code: either NaN (the result of
arithmetic on `undefined`) or an exact rational. -/
inductive JsNum where
  | nan : JsNum
  | q : ℚ → JsNum
deriving DecidableEq, Repr

/-- JavaScript multiplication of a stored value by a finite factor:
`NaN * f = NaN`. -/
def JsNum.mul : JsNum → ℚ → JsNum
  | .nan, _ => .nan
  | .q x, f => .q (x * f)

/-- JavaScript comparison `v > 1` (false on NaN). -/
def JsNum.gtOne : JsNum → Bool
  | .nan => false
  | .q x => decide (1 < x)

/-- The `matchups` record: an insertion-ordered string-keyed object. -/
abbrev Rec := List (String × JsNum)

/-- Key list of a record, in insertion order (`Object.keys`). -/
def keysOf (m : Rec) : List String := m.map (fun p => p.1)

/-- `m[k]` as a read: the stored value, or NaN for the arithmetic use of a
missing key (`undefined * f`). -/
def recGet (m : Rec) (k : String) : JsNum :=
  match m.find? (fun p => p.1 == k) with
  | some p => p.2
  | none => .nan

/-- Does the record have key `k`? -/
def containsKey (m : Rec) (k : String) : Bool := m.any (fun p => p.1 == k)

/-- `m[k] = v`: in-place update when the key exists, append otherwise. -/
def recSet (m : Rec) (k : String) (v : JsNum) : Rec :=
  if containsKey m k then
    m.map (fun p => if p.1 == k then (p.1, v) else p)
  else m ++ [(k, v)]

/-- `m[k] *= f`: read-modify-write.  On a missing key JavaScript reads
`undefined`, multiplies to NaN and stores it (appending the key). -/
def recMul (m : Rec) (k : String) (f : ℚ) : Rec :=
  if containsKey m k then
    m.map (fun p => if p.1 == k then (p.1, p.2.mul f) else p)
  else m ++ [(k, JsNum.nan)]

/-! ### calculateDefensiveMatchups -/

/-- The body of the `types.forEach` loop applied for one chart entry:
`data.double.forEach(t => matchups[t] *= 2)` etc. -/
def applyEntry (m : Rec) (data : TypeEffectiveness) : Rec :=
  let m1 := data.double.foldl (fun acc t => recMul acc t 2) m
  let m2 := data.half.foldl (fun acc t => recMul acc t (1/2)) m1
  data.zero.foldl (fun acc t => recMul acc t 0) m2

/-- One iteration of `types.forEach(defendingType => ...)`: look the
defending type up (lower-cased) and skip it when absent. -/
def defStep (m : Rec) (defendingType : String) : Rec :=
  match lookupChart (jsToLower defendingType) with
  | none => m
  | some data => applyEntry m data

/-- `allTypes.forEach(t => matchups[t] = 1)` starting from `{}`. -/
def initMatchups : Rec :=
  allTypes.foldl (fun m t => recSet m t (.q 1)) []

/-- `calculateDefensiveMatchups(types)`. -/
def calculateDefensiveMatchups (types : List String) : Rec :=
  types.foldl defStep initMatchups

/-- Denotation of one chart entry at attacking type `k`: the factor the
entry's loop multiplies into `matchups[k]` (one 2 per `double` occurrence,
one 0.5 per `half` occurrence, one 0 per `zero` occurrence). -/
def entryFactor (e : TypeEffectiveness) (k : String) : ℚ :=
  2 ^ e.double.count k * (1/2) ^ e.half.count k * 0 ^ e.zero.count k

/-- Denotation of one defending type at attacking type `k` (1 when the
type has no chart entry). -/
def typeFactor (defendingType : String) (k : String) : ℚ :=
  match lookupChart (jsToLower defendingType) with
  | none => 1
  | some e => entryFactor e k

/-! ### getOffensiveStrengths -/

/-- `Set.add` followed by `Array.from`: append if not already present
(JS `Set` keeps insertion order). -/
def insertSet (acc : List String) (x : String) : List String :=
  if x ∈ acc then acc else acc ++ [x]

/-- One iteration of `attackerTypes.forEach`: scan every chart entry and
collect those whose `double` list contains the (lower-cased) attacker. -/
def offStep (acc : List String) (atkType : String) : List String :=
  TYPE_CHART.foldl
    (fun acc p => if jsToLower atkType ∈ p.2.double then insertSet acc p.1 else acc) acc

/-- `getOffensiveStrengths(attackerTypes)`. -/
def getOffensiveStrengths (attackerTypes : List String) : List String :=
  attackerTypes.foldl offStep []

/-! ### Team roster operations (home.tsx) -/

/-- `addToTeam`: no-op without a loaded pokemon; reject when the party is
full (6) or the id is already present; append otherwise. -/
def addToTeam (team : List Pokemon) (pokemon : Option Pokemon) : List Pokemon :=
  match pokemon with
  | none => team
  | some p =>
    if 6 ≤ team.length then team
    else if team.any (fun q => q.id == p.id) then team
    else team ++ [p]

/-- `removeFromTeam(id)`: `team.filter(p => p.id !== id)`. -/
def removeFromTeam (team : List Pokemon) (id : Nat) : List Pokemon :=
  team.filter (fun p => !(p.id == id))

/-- Team states reachable from the initial empty roster through the UI
operations (`addToTeam`, `removeFromTeam`, the CLEAR button). -/
inductive ReachableTeam : List Pokemon → Prop where
  | empty : ReachableTeam []
  | add (t : List Pokemon) (p : Option Pokemon) :
      ReachableTeam t → ReachableTeam (addToTeam t p)
  | remove (t : List Pokemon) (i : Nat) :
      ReachableTeam t → ReachableTeam (removeFromTeam t i)
  | clear (t : List Pokemon) : ReachableTeam t → ReachableTeam []

/-! ### Team comparator (home.tsx) -/

/-- `pokemon?.types.map(t => t.type.name) || []`. -/
def currentTypesOf : Option Pokemon → List String
  | some p => p.types.map (fun t => t.type.name)
  | none => []

/-- `Object.entries(matchups).filter(([_, m]) => m > 1).map(([type]) => type)`. -/
def weaknessesOf (m : Rec) : List String :=
  (m.filter (fun p => p.2.gtOne)).map (fun p => p.1)

/-- `teamAdvantage`: members with a type among the subject's defensive
weaknesses. -/
def teamAdvantage (team : List Pokemon) (pokemon : Option Pokemon) : List Pokemon :=
  let currentPokemonWeaknesses :=
    weaknessesOf (calculateDefensiveMatchups (currentTypesOf pokemon))
  team.filter (fun member =>
    member.types.any (fun t => currentPokemonWeaknesses.contains t.type.name))

/-- `teamDisadvantage`: members weak (multiplier `> 1`) to some offensive
strength of the subject. -/
def teamDisadvantage (team : List Pokemon) (pokemon : Option Pokemon) : List Pokemon :=
  let currentPokemonStrengths := getOffensiveStrengths (currentTypesOf pokemon)
  team.filter (fun member =>
    let memberMatchups := calculateDefensiveMatchups (member.types.map (fun t => t.type.name))
    currentPokemonStrengths.any (fun atkType => (recGet memberMatchups atkType).gtOne))

/-! ### Entity retrieval (pokeapi.ts) -/

/-- The `string | number` query argument of `getPokemon`. -/
inductive Query where
  | str : String → Query
  | num : Int → Query
deriving DecidableEq, Repr

/-- JavaScript falsiness of a `string | number` value (`""` and `0`). -/
def Query.isFalsy : Query → Bool
  | .str s => s == ""
  | .num n => n == 0

/-- Template interpolation `${typeof q === 'string' ? q.toLowerCase() : q}`. -/
def Query.render : Query → String
  | .str s => jsToLower s
  | .num n => toString n

/-- The fetched URL: `const q = query || 1` then the template literal. -/
def pokemonRequestUrl (query : Query) : String :=
  let q := if query.isFalsy then Query.num 1 else query
  "https://pokeapi.co/api/v2/pokemon/" ++ q.render

/-- The remote response: its `ok` flag and (when ok) the decoded body. -/
structure FetchResponse where
  ok : Bool
  body : Pokemon

/-- `getPokemon(query)`, with the single network round-trip supplied as a
function from URL to response: one fetch, throw `"Pokemon not found"`
when `!response.ok`, otherwise return the body. -/
def getPokemon (fetchRemote : String → FetchResponse) (query : Query) :
    Except String Pokemon :=
  let response := fetchRemote (pokemonRequestUrl query)
  if response.ok then Except.ok response.body else Except.error "Pokemon not found"

/-! ### Basic algebra of the JavaScript-number and record models -/

theorem JsNum.mul_one (x : JsNum) : x.mul 1 = x := by
  cases x <;> simp [JsNum.mul]

theorem JsNum.mul_mul (x : JsNum) (a b : ℚ) : (x.mul a).mul b = x.mul (a * b) := by
  cases x <;> simp [JsNum.mul, mul_assoc]

theorem containsKey_iff (m : Rec) (k : String) :
    containsKey m k = true ↔ k ∈ keysOf m := by
  simp [containsKey, keysOf, List.any_eq_true, List.mem_map, beq_iff_eq]

theorem recGet_cons (p : String × JsNum) (m : Rec) (j : String) :
    recGet (p :: m) j = if p.1 = j then p.2 else recGet m j := by
  by_cases h : p.1 = j
  · simp [recGet, List.find?_cons_of_pos, h]
  · rw [recGet, List.find?_cons_of_neg _ (by simpa using h), if_neg h]
    rfl

theorem keysOf_map_update (m : Rec) (k : String) (g : JsNum → JsNum) :
    keysOf (m.map (fun p => if p.1 == k then (p.1, g p.2) else p)) = keysOf m := by
  simp only [keysOf, List.map_map]
  apply List.map_congr_left
  intro p _
  by_cases h : p.1 = k <;> simp [h]

theorem recGet_map_mul (m : Rec) (k j : String) (f : ℚ) :
    recGet (m.map (fun p => if p.1 == k then (p.1, p.2.mul f) else p)) j =
      if j = k then (recGet m j).mul f else recGet m j := by
  induction m with
  | nil => by_cases h : j = k <;> simp [recGet, h, JsNum.mul]
  | cons p m ih =>
    simp only [List.map_cons]
    by_cases hpk : p.1 = k
    · simp only [if_pos (show (p.1 == k) = true by simpa using hpk)]
      rw [recGet_cons, recGet_cons]
      by_cases hjp : p.1 = j
      · have hjk : j = k := by rw [← hjp, hpk]
        simp [hjp, hjk]
      · have hjk : j ≠ k := fun h => hjp (by rw [hpk, ← h])
        simp only [if_neg hjp, if_neg hjk, ih]
    · simp only [if_neg (show ¬ ((p.1 == k) = true) by simpa using hpk)]
      rw [recGet_cons, recGet_cons]
      by_cases hjp : p.1 = j
      · have hjk : j ≠ k := fun h => hpk (by rw [hjp, h])
        simp [hjp, hjk]
      · simp only [if_neg hjp, ih]

theorem recMul_of_contains (m : Rec) (k : String) (f : ℚ) (h : containsKey m k = true) :
    recMul m k f = m.map (fun p => if p.1 == k then (p.1, p.2.mul f) else p) := by
  simp [recMul, h]

theorem keysOf_recMul (m : Rec) (k : String) (f : ℚ) (h : containsKey m k = true) :
    keysOf (recMul m k f) = keysOf m := by
  rw [recMul_of_contains m k f h]
  exact keysOf_map_update m k (fun v => v.mul f)

theorem recGet_recMul (m : Rec) (k j : String) (f : ℚ) (h : containsKey m k = true) :
    recGet (recMul m k f) j = if j = k then (recGet m j).mul f else recGet m j := by
  rw [recMul_of_contains m k f h, recGet_map_mul]

/-! ### Denotation of `calculateDefensiveMatchups` -/

theorem keysOf_foldl_recMul (l : List String) (f : ℚ) (m : Rec)
    (h : ∀ t ∈ l, t ∈ keysOf m) :
    keysOf (l.foldl (fun acc t => recMul acc t f) m) = keysOf m := by
  induction l generalizing m with
  | nil => rfl
  | cons t l ih =>
    simp only [List.foldl_cons]
    have hct : containsKey m t = true := (containsKey_iff m t).mpr (h t (by simp))
    have hk := keysOf_recMul m t f hct
    rw [ih _ (fun s hs => by rw [hk]; exact h s (by simp [hs])), hk]

theorem recGet_foldl_recMul (l : List String) (f : ℚ) (m : Rec) (k : String)
    (h : ∀ t ∈ l, t ∈ keysOf m) :
    recGet (l.foldl (fun acc t => recMul acc t f) m) k =
      (recGet m k).mul (f ^ l.count k) := by
  induction l generalizing m with
  | nil => simp [JsNum.mul_one]
  | cons t l ih =>
    simp only [List.foldl_cons]
    have hct : containsKey m t = true := (containsKey_iff m t).mpr (h t (by simp))
    have hk := keysOf_recMul m t f hct
    rw [ih _ (fun s hs => by rw [hk]; exact h s (by simp [hs]))]
    rw [recGet_recMul m t k f hct]
    by_cases hkt : k = t
    · rw [if_pos hkt, JsNum.mul_mul]
      congr 1
      rw [List.count_cons, if_pos (by simpa using hkt.symm), pow_succ, mul_comm]
    · rw [if_neg hkt, List.count_cons,
        if_neg (by simpa using fun hc : t = k => hkt hc.symm), Nat.add_zero]

theorem keysOf_applyEntry (m : Rec) (e : TypeEffectiveness)
    (h : ∀ t ∈ e.double ++ e.half ++ e.zero, t ∈ keysOf m) :
    keysOf (applyEntry m e) = keysOf m := by
  simp only [List.mem_append] at h
  unfold applyEntry
  have h1 : keysOf (e.double.foldl (fun acc t => recMul acc t 2) m) = keysOf m :=
    keysOf_foldl_recMul _ _ _ (fun t ht => h t (Or.inl (Or.inl ht)))
  have h2 : keysOf ((e.half.foldl (fun acc t => recMul acc t (1/2))
      (e.double.foldl (fun acc t => recMul acc t 2) m))) = keysOf m := by
    rw [keysOf_foldl_recMul _ _ _ (fun t ht => by
      rw [h1]; exact h t (Or.inl (Or.inr ht))), h1]
  rw [keysOf_foldl_recMul _ _ _ (fun t ht => by
    rw [h2]; exact h t (Or.inr ht)), h2]

theorem recGet_applyEntry (m : Rec) (e : TypeEffectiveness) (k : String)
    (h : ∀ t ∈ e.double ++ e.half ++ e.zero, t ∈ keysOf m) :
    recGet (applyEntry m e) k = (recGet m k).mul (entryFactor e k) := by
  simp only [List.mem_append] at h
  unfold applyEntry entryFactor
  have h1 : keysOf (e.double.foldl (fun acc t => recMul acc t 2) m) = keysOf m :=
    keysOf_foldl_recMul _ _ _ (fun t ht => h t (Or.inl (Or.inl ht)))
  have h2 : keysOf ((e.half.foldl (fun acc t => recMul acc t (1/2))
      (e.double.foldl (fun acc t => recMul acc t 2) m))) = keysOf m := by
    rw [keysOf_foldl_recMul _ _ _ (fun t ht => by
      rw [h1]; exact h t (Or.inl (Or.inr ht))), h1]
  rw [recGet_foldl_recMul _ _ _ _ (fun t ht => by rw [h2]; exact h t (Or.inr ht)),
    recGet_foldl_recMul _ _ _ _ (fun t ht => by rw [h1]; exact h t (Or.inl (Or.inr ht))),
    recGet_foldl_recMul _ _ _ _ (fun t ht => h t (Or.inl (Or.inl ht))),
    JsNum.mul_mul, JsNum.mul_mul]
  congr 1
  ring

theorem chart_closed :
    ∀ p ∈ TYPE_CHART, ∀ t ∈ p.2.double ++ p.2.half ++ p.2.zero, t ∈ allTypes := by
  decide

theorem lookupChart_eq_some {k : String} {e : TypeEffectiveness}
    (h : lookupChart k = some e) : (k, e) ∈ TYPE_CHART := by
  unfold lookupChart at h
  cases hf : TYPE_CHART.find? (fun p => p.1 == k) with
  | none => rw [hf] at h; simp at h
  | some p =>
    rw [hf] at h
    simp at h
    have hmem := List.mem_of_find?_eq_some hf
    have hpred : p.1 = k := by simpa using List.find?_some hf
    have hp : p = (k, e) := by
      cases p with
      | mk a b => simp_all
    rwa [hp] at hmem

theorem keysOf_defStep (m : Rec) (d : String) (h : keysOf m = allTypes) :
    keysOf (defStep m d) = allTypes := by
  unfold defStep
  cases hl : lookupChart (jsToLower d) with
  | none => exact h
  | some e =>
    have hc := chart_closed _ (lookupChart_eq_some hl)
    rw [keysOf_applyEntry m e (fun t ht => by rw [h]; exact hc t ht), h]

theorem recGet_defStep (m : Rec) (d : String) (k : String) (h : keysOf m = allTypes) :
    recGet (defStep m d) k = (recGet m k).mul (typeFactor d k) := by
  unfold defStep typeFactor
  cases hl : lookupChart (jsToLower d) with
  | none => simp [JsNum.mul_one]
  | some e =>
    have hc := chart_closed _ (lookupChart_eq_some hl)
    exact recGet_applyEntry m e k (fun t ht => by rw [h]; exact hc t ht)

theorem initMatchups_eq : initMatchups = allTypes.map (fun t => (t, JsNum.q 1)) := by
  decide

theorem recGet_map_const (l : List String) (k : String) (c : JsNum) :
    recGet (l.map (fun t => (t, c))) k = if k ∈ l then c else JsNum.nan := by
  induction l with
  | nil => simp [recGet]
  | cons t l ih =>
    simp only [List.map_cons]
    rw [recGet_cons]
    by_cases h : t = k
    · simp [h]
    · simp only [if_neg h, ih, List.mem_cons]
      have hkt : ¬ k = t := fun hc => h hc.symm
      simp [hkt]

theorem recGet_init (k : String) :
    recGet initMatchups k = if k ∈ allTypes then JsNum.q 1 else JsNum.nan := by
  rw [initMatchups_eq, recGet_map_const]

theorem keysOf_init : keysOf initMatchups = allTypes := by decide

theorem recGet_foldl_defStep (L : List String) (m : Rec) (k : String)
    (h : keysOf m = allTypes) :
    recGet (L.foldl defStep m) k =
      (recGet m k).mul ((L.map (fun d => typeFactor d k)).prod) := by
  induction L generalizing m with
  | nil => simp [JsNum.mul_one]
  | cons d L ih =>
    simp only [List.foldl_cons, List.map_cons, List.prod_cons]
    rw [ih _ (keysOf_defStep m d h), recGet_defStep m d k h, JsNum.mul_mul]

theorem keysOf_foldl_defStep (L : List String) (m : Rec) (h : keysOf m = allTypes) :
    keysOf (L.foldl defStep m) = allTypes := by
  induction L generalizing m with
  | nil => exact h
  | cons d L ih => exact ih _ (keysOf_defStep m d h)

/-- The central denotation: the computed multiplier at every canonical
attacking type is the product of the per-defending-type factors, and
every non-canonical key reads back as NaN (it is absent). -/
theorem recGet_calc (L : List String) (k : String) :
    recGet (calculateDefensiveMatchups L) k =
      if k ∈ allTypes then JsNum.q ((L.map (fun d => typeFactor d k)).prod)
      else JsNum.nan := by
  unfold calculateDefensiveMatchups
  rw [recGet_foldl_defStep L initMatchups k keysOf_init, recGet_init]
  by_cases h : k ∈ allTypes
  · simp [h, JsNum.mul, one_mul]
  · simp [h, JsNum.mul]

theorem keysOf_calc (L : List String) :
    keysOf (calculateDefensiveMatchups L) = allTypes :=
  keysOf_foldl_defStep L initMatchups keysOf_init

theorem typeFactor_nonneg (d k : String) : 0 ≤ typeFactor d k := by
  unfold typeFactor
  cases lookupChart (jsToLower d) with
  | none => norm_num
  | some e =>
    unfold entryFactor
    exact mul_nonneg
      (mul_nonneg (pow_nonneg (by norm_num) _) (pow_nonneg (by norm_num) _))
      (pow_nonneg (le_refl 0) _)

/-! ### Membership in `getOffensiveStrengths` -/

theorem mem_insertSet (acc : List String) (x y : String) :
    y ∈ insertSet acc x ↔ y ∈ acc ∨ y = x := by
  unfold insertSet
  by_cases h : x ∈ acc
  · rw [if_pos h]
    constructor
    · exact Or.inl
    · rintro (hy | rfl)
      · exact hy
      · exact h
  · rw [if_neg h]
    simp [List.mem_append]

theorem mem_offStep_aux (a : String) (l : List (String × TypeEffectiveness))
    (acc : List String) (y : String) :
    y ∈ l.foldl (fun acc p => if jsToLower a ∈ p.2.double then insertSet acc p.1 else acc) acc ↔
      y ∈ acc ∨ ∃ p ∈ l, p.1 = y ∧ jsToLower a ∈ p.2.double := by
  induction l generalizing acc with
  | nil => simp
  | cons q l ih =>
    simp only [List.foldl_cons]
    rw [ih]
    by_cases h : jsToLower a ∈ q.2.double
    · rw [if_pos h, mem_insertSet]
      constructor
      · rintro ((hy | rfl) | ⟨p, hp, rfl, hd⟩)
        · exact Or.inl hy
        · exact Or.inr ⟨q, by simp, rfl, h⟩
        · exact Or.inr ⟨p, by simp [hp], rfl, hd⟩
      · rintro (hy | ⟨p, hp, rfl, hd⟩)
        · exact Or.inl (Or.inl hy)
        · rcases List.mem_cons.mp hp with rfl | hq
          · exact Or.inl (Or.inr rfl)
          · exact Or.inr ⟨p, hq, rfl, hd⟩
    · rw [if_neg h]
      constructor
      · rintro (hy | ⟨p, hp, rfl, hd⟩)
        · exact Or.inl hy
        · exact Or.inr ⟨p, by simp [hp], rfl, hd⟩
      · rintro (hy | ⟨p, hp, rfl, hd⟩)
        · exact Or.inl hy
        · rcases List.mem_cons.mp hp with rfl | hq
          · exact (h hd).elim
          · exact Or.inr ⟨p, hq, rfl, hd⟩

theorem mem_offStep (acc : List String) (a y : String) :
    y ∈ offStep acc a ↔
      y ∈ acc ∨ ∃ p ∈ TYPE_CHART, p.1 = y ∧ jsToLower a ∈ p.2.double := by
  unfold offStep
  exact mem_offStep_aux a TYPE_CHART acc y

theorem mem_foldl_offStep (L : List String) (acc : List String) (y : String) :
    y ∈ L.foldl offStep acc ↔
      y ∈ acc ∨ ∃ a ∈ L, ∃ p ∈ TYPE_CHART, p.1 = y ∧ jsToLower a ∈ p.2.double := by
  induction L generalizing acc with
  | nil => simp
  | cons a L ih =>
    simp only [List.foldl_cons]
    rw [ih]
    constructor
    · rintro (hoff | ⟨b, hb, hex⟩)
      · rcases (mem_offStep acc a y).mp hoff with hy | hex
        · exact Or.inl hy
        · exact Or.inr ⟨a, by simp, hex⟩
      · exact Or.inr ⟨b, by simp [hb], hex⟩
    · rintro (hy | ⟨b, hb, hex⟩)
      · exact Or.inl ((mem_offStep acc a y).mpr (Or.inl hy))
      · rcases List.mem_cons.mp hb with rfl | hb'
        · exact Or.inl ((mem_offStep acc b y).mpr (Or.inr hex))
        · exact Or.inr ⟨b, hb', hex⟩

theorem mem_getOffensiveStrengths (L : List String) (y : String) :
    y ∈ getOffensiveStrengths L ↔
      ∃ a ∈ L, ∃ p ∈ TYPE_CHART, p.1 = y ∧ jsToLower a ∈ p.2.double := by
  unfold getOffensiveStrengths
  rw [mem_foldl_offStep]
  simp

/-! ### Unknown type identifiers -/

theorem lookupChart_eq_none {k : String} (h : k ∉ allTypes) : lookupChart k = none := by
  unfold lookupChart
  have hf : TYPE_CHART.find? (fun p => p.1 == k) = none := by
    rw [List.find?_eq_none]
    intro p hp hbeq
    refine h ?_
    have hpk : p.1 = k := by simpa using hbeq
    rw [← hpk]
    exact List.mem_map_of_mem _ hp
  rw [hf]
  rfl

theorem defStep_unknown (m : Rec) {u : String} (h : jsToLower u ∉ allTypes) :
    defStep m u = m := by
  unfold defStep
  rw [lookupChart_eq_none h]

theorem foldl_offStep_skip (a : String) (l : List (String × TypeEffectiveness))
    (acc : List String) (h : ∀ p ∈ l, jsToLower a ∉ p.2.double) :
    l.foldl (fun acc p => if jsToLower a ∈ p.2.double then insertSet acc p.1 else acc) acc
      = acc := by
  induction l generalizing acc with
  | nil => rfl
  | cons q l ih =>
    simp only [List.foldl_cons]
    rw [if_neg (h q (by simp)), ih _ (fun p hp => h p (by simp [hp]))]

theorem offStep_unknown (acc : List String) {u : String} (h : jsToLower u ∉ allTypes) :
    offStep acc u = acc := by
  unfold offStep
  apply foldl_offStep_skip
  intro p hp hd
  exact h (chart_closed p hp _ (by simp [hd]))

/-! ### Further helper lemmas -/

theorem allTypes_nodup : allTypes.Nodup := by decide

theorem recGet_of_mem_nodup (m : Rec) (h : (keysOf m).Nodup) (p : String × JsNum)
    (hp : p ∈ m) : recGet m p.1 = p.2 := by
  induction m with
  | nil => cases hp
  | cons q m ih =>
    have hq : q.1 ∉ keysOf m ∧ (keysOf m).Nodup := by simpa [keysOf] using h
    rcases List.mem_cons.mp hp with rfl | hp
    · rw [recGet_cons, if_pos rfl]
    · rw [recGet_cons, if_neg (fun he => hq.1 (by
        rw [he]; exact List.mem_map_of_mem _ hp))]
      exact ih hq.2 hp

theorem list_prod_nonneg (l : List ℚ) (h : ∀ x ∈ l, 0 ≤ x) : 0 ≤ l.prod := by
  induction l with
  | nil => simp
  | cons x l ih =>
    rw [List.prod_cons]
    exact mul_nonneg (h x (by simp)) (ih (fun y hy => h y (by simp [hy])))

/-! ### The claims -/

/-- C2: `getOffensiveStrengths(["water"])` contains exactly the defending
types whose own chart entry lists water in its `double` set — in particular
fire, ground and rock — and it is not water's own `double` list
`["electric","grass"]`; in general a type `d` is in the result iff some
supplied attacker (lower-cased) appears in `d`'s `double` list. -/
theorem C2_offensive_inverse :
    ("fire" ∈ getOffensiveStrengths ["water"]
      ∧ "ground" ∈ getOffensiveStrengths ["water"]
      ∧ "rock" ∈ getOffensiveStrengths ["water"])
    ∧ (getOffensiveStrengths ["water"] ≠ ["electric", "grass"]
      ∧ "electric" ∉ getOffensiveStrengths ["water"]
      ∧ "grass" ∉ getOffensiveStrengths ["water"])
    ∧ (∀ (L : List String) (d : String),
        d ∈ getOffensiveStrengths L ↔
          ∃ t ∈ L, ∃ p ∈ TYPE_CHART, p.1 = d ∧ jsToLower t ∈ p.2.double) := by
  refine ⟨by decide, by decide, ?_⟩
  intro L d
  exact mem_getOffensiveStrengths L d

/-- C3: `calculateDefensiveMatchups` is order-independent: permuted
defending-type lists give entrywise-equal mappings; in particular
`["fire","flying"]` and `["flying","fire"]` agree at every attacking type. -/
theorem C3_perm_invariance :
    (∀ (L1 L2 : List String), L1.Perm L2 → ∀ k : String,
        recGet (calculateDefensiveMatchups L1) k = recGet (calculateDefensiveMatchups L2) k)
    ∧ (∀ k : String,
        recGet (calculateDefensiveMatchups ["fire", "flying"]) k =
          recGet (calculateDefensiveMatchups ["flying", "fire"]) k) := by
  have main : ∀ (L1 L2 : List String), L1.Perm L2 → ∀ k : String,
      recGet (calculateDefensiveMatchups L1) k = recGet (calculateDefensiveMatchups L2) k := by
    intro L1 L2 h k
    rw [recGet_calc, recGet_calc]
    by_cases hk : k ∈ allTypes
    · rw [if_pos hk, if_pos hk]
      congr 1
      exact (h.map (fun d => typeFactor d k)).prod_eq
    · rw [if_neg hk, if_neg hk]
  exact ⟨main, fun k => main _ _ (List.Perm.swap "flying" "fire" []) k⟩

theorem C3_perm_invariance_witness :
    (["fire", "flying"] : List String).Perm ["flying", "fire"]
    ∧ recGet (calculateDefensiveMatchups ["fire", "flying"]) "water" =
        recGet (calculateDefensiveMatchups ["flying", "fire"]) "water" :=
  ⟨List.Perm.swap "flying" "fire" [],
    C3_perm_invariance.1 _ _ (List.Perm.swap "flying" "fire" []) "water"⟩

/-- C4: for every defending-type list the result has exactly the 18
canonical types as keys and every stored value is a non-negative rational. -/
theorem C4_total_nonneg :
    ∀ L : List String,
      keysOf (calculateDefensiveMatchups L) = allTypes
      ∧ allTypes.length = 18
      ∧ (∀ p ∈ calculateDefensiveMatchups L, ∃ x : ℚ, p.2 = JsNum.q x ∧ 0 ≤ x) := by
  intro L
  refine ⟨keysOf_calc L, by decide, ?_⟩
  intro p hp
  have hkey : recGet (calculateDefensiveMatchups L) p.1 = p.2 := by
    apply recGet_of_mem_nodup _ _ _ hp
    rw [keysOf_calc]
    exact allTypes_nodup
  have hmem : p.1 ∈ keysOf (calculateDefensiveMatchups L) := List.mem_map_of_mem _ hp
  rw [keysOf_calc] at hmem
  rw [recGet_calc, if_pos hmem] at hkey
  refine ⟨(L.map (fun d => typeFactor d p.1)).prod, hkey.symm, ?_⟩
  apply list_prod_nonneg
  intro x hx
  rcases List.mem_map.mp hx with ⟨d, _, rfl⟩
  exact typeFactor_nonneg d p.1

theorem C4_total_nonneg_witness :
    (("normal", JsNum.q 1) ∈ calculateDefensiveMatchups ["water"])
    ∧ (∃ x : ℚ, (("normal", JsNum.q 1) : String × JsNum).2 = JsNum.q x ∧ 0 ≤ x) :=
  ⟨by decide, (C4_total_nonneg ["water"]).2.2 ("normal", JsNum.q 1) (by decide)⟩

/-- C5: multipliers compound multiplicatively starting from 1 (one factor
per applicable relationship, as the product of per-type factors), and the
three quoted instances: ghost blocks normal, steel blocks poison, and
water+grass nets electric to 1. -/
theorem C5_compounding :
    (∀ (L : List String) (k : String), k ∈ allTypes →
        recGet (calculateDefensiveMatchups L) k =
          JsNum.q ((L.map (fun d => typeFactor d k)).prod))
    ∧ recGet (calculateDefensiveMatchups ["ghost"]) "normal" = JsNum.q 0
    ∧ recGet (calculateDefensiveMatchups ["steel"]) "poison" = JsNum.q 0
    ∧ recGet (calculateDefensiveMatchups ["water", "grass"]) "electric" = JsNum.q 1 := by
  refine ⟨?_, by decide, by decide, by decide⟩
  intro L k hk
  rw [recGet_calc, if_pos hk]

theorem C5_compounding_witness :
    ("electric" ∈ allTypes)
    ∧ recGet (calculateDefensiveMatchups ["water", "grass"]) "electric" =
        JsNum.q (((["water", "grass"] : List String).map (fun d => typeFactor d "electric")).prod) :=
  ⟨by decide, C5_compounding.1 ["water", "grass"] "electric" (by decide)⟩

/-- C10: the chart is closed over its own key set (every name in any
`double`/`half`/`zero` list is a canonical key), and consequently the
calculator's result always has exactly the canonical keys with every value
a genuine (non-NaN) rational — the missing-key update is unreachable. -/
theorem C10_chart_closed_safety :
    (∀ p ∈ TYPE_CHART, ∀ t ∈ p.2.double ++ p.2.half ++ p.2.zero, t ∈ allTypes)
    ∧ (∀ L : List String, keysOf (calculateDefensiveMatchups L) = allTypes)
    ∧ (∀ (L : List String), ∀ p ∈ calculateDefensiveMatchups L, ∃ x : ℚ, p.2 = JsNum.q x) := by
  refine ⟨chart_closed, keysOf_calc, ?_⟩
  intro L p hp
  rcases (C4_total_nonneg L).2.2 p hp with ⟨x, hx, _⟩
  exact ⟨x, hx⟩

theorem C10_chart_closed_safety_witness :
    (("normal", (⟨["fighting"], [], ["ghost"]⟩ : TypeEffectiveness)) ∈ TYPE_CHART)
    ∧ ("fighting" ∈ allTypes)
    ∧ (("normal", JsNum.q 1) ∈ calculateDefensiveMatchups [])
    ∧ (∃ x : ℚ, ((("normal", JsNum.q 1) : String × JsNum)).2 = JsNum.q x) :=
  ⟨by decide,
    C10_chart_closed_safety.1 ("normal", ⟨["fighting"], [], ["ghost"]⟩) (by decide)
      "fighting" (by decide),
    by decide,
    C10_chart_closed_safety.2.2 [] ("normal", JsNum.q 1) (by decide)⟩

/-- C1 counterexample: the claim says `getOffensiveStrengths(["ghost"])`
equals {ghost, dark}, but "dark" is not in the computed set (no chart entry
except psychic's and ghost's lists ghost in `double`), while "psychic" is
computed yet absent from the claimed set. -/
theorem C1_claimed_set_refuted :
    ("dark" ∈ (["ghost", "dark"] : List String) ∧ "dark" ∉ getOffensiveStrengths ["ghost"])
    ∧ ("psychic" ∈ getOffensiveStrengths ["ghost"]
      ∧ "psychic" ∉ (["ghost", "dark"] : List String)) := by
  decide

/-- C1 (amended): for a single-type ghost subject the inverse scan yields
exactly {psychic, ghost} — the types whose `double` list contains ghost —
and any single-type psychic roster member is placed in the Risk set. -/
theorem C1_ghost_scenario :
    getOffensiveStrengths ["ghost"] = ["psychic", "ghost"]
    ∧ (∀ t : String, t ∈ getOffensiveStrengths ["ghost"] ↔
        ∃ p ∈ TYPE_CHART, p.1 = t ∧ "ghost" ∈ p.2.double)
    ∧ (∀ (team : List Pokemon) (subject member : Pokemon),
        subject.types.map (fun t => t.type.name) = ["ghost"] →
        member ∈ team →
        member.types.map (fun t => t.type.name) = ["psychic"] →
        member ∈ teamDisadvantage team (some subject)) := by
  refine ⟨by decide, ?_, ?_⟩
  · intro t
    rw [mem_getOffensiveStrengths]
    have hg : jsToLower "ghost" = "ghost" := by decide
    constructor
    · rintro ⟨a, ha, p, hp, hpt, hd⟩
      have ha' : a = "ghost" := List.mem_singleton.mp ha
      rw [ha', hg] at hd
      exact ⟨p, hp, hpt, hd⟩
    · rintro ⟨p, hp, hpt, hd⟩
      exact ⟨"ghost", by simp, p, hp, hpt, by rw [hg]; exact hd⟩
  · intro team subject member hsub hmem htypes
    unfold teamDisadvantage
    rw [List.mem_filter]
    refine ⟨hmem, ?_⟩
    show (getOffensiveStrengths (currentTypesOf (some subject))).any (fun atkType =>
      (recGet (calculateDefensiveMatchups (member.types.map (fun t => t.type.name)))
        atkType).gtOne) = true
    show (getOffensiveStrengths (subject.types.map (fun t => t.type.name))).any (fun atkType =>
      (recGet (calculateDefensiveMatchups (member.types.map (fun t => t.type.name)))
        atkType).gtOne) = true
    rw [hsub, htypes]
    decide

theorem C1_ghost_scenario_witness :
    ((⟨93, "haunter", [⟨1, ⟨"ghost", ""⟩⟩]⟩ : Pokemon).types.map (fun t => t.type.name)
        = ["ghost"])
    ∧ ((⟨63, "abra", [⟨1, ⟨"psychic", ""⟩⟩]⟩ : Pokemon)
        ∈ [(⟨63, "abra", [⟨1, ⟨"psychic", ""⟩⟩]⟩ : Pokemon)])
    ∧ ((⟨63, "abra", [⟨1, ⟨"psychic", ""⟩⟩]⟩ : Pokemon).types.map (fun t => t.type.name)
        = ["psychic"])
    ∧ (⟨63, "abra", [⟨1, ⟨"psychic", ""⟩⟩]⟩ : Pokemon)
        ∈ teamDisadvantage [⟨63, "abra", [⟨1, ⟨"psychic", ""⟩⟩]⟩]
            (some ⟨93, "haunter", [⟨1, ⟨"ghost", ""⟩⟩]⟩) :=
  ⟨by decide, by decide, by decide,
    C1_ghost_scenario.2.2 _ _ _ (by decide) (by decide) (by decide)⟩

/-- C6: `addToTeam` rejects when the roster is full (6) or the id already
exists, otherwise appends; `removeFromTeam` removes exactly the members
with the given id and is a no-op when none has it; therefore every
reachable roster has at most 6 members with pairwise-distinct ids. -/
theorem C6_roster_ops :
    (∀ (team : List Pokemon) (p : Pokemon),
        6 ≤ team.length ∨ team.any (fun q => q.id == p.id) = true →
        addToTeam team (some p) = team)
    ∧ (∀ (team : List Pokemon) (p : Pokemon),
        team.length < 6 → team.any (fun q => q.id == p.id) = false →
        addToTeam team (some p) = team ++ [p])
    ∧ (∀ (team : List Pokemon) (i : Nat), ∀ p ∈ removeFromTeam team i, p.id ≠ i)
    ∧ (∀ (team : List Pokemon) (i : Nat) (p : Pokemon), p ∈ team → p.id ≠ i →
        p ∈ removeFromTeam team i)
    ∧ (∀ (team : List Pokemon) (i : Nat), (∀ p ∈ team, p.id ≠ i) →
        removeFromTeam team i = team)
    ∧ (∀ team : List Pokemon, ReachableTeam team →
        team.length ≤ 6 ∧ (team.map (fun p => p.id)).Nodup) := by
  refine ⟨?_, ?_, ?_, ?_, ?_, ?_⟩
  · intro team p h
    show (if 6 ≤ team.length then team
      else if (team.any fun q => q.id == p.id) = true then team else team ++ [p]) = team
    by_cases h6 : 6 ≤ team.length
    · rw [if_pos h6]
    · rw [if_neg h6]
      rcases h with h | hdup
      · exact (h6 h).elim
      · rw [if_pos hdup]
  · intro team p h6 hdup
    show (if 6 ≤ team.length then team
      else if (team.any fun q => q.id == p.id) = true then team else team ++ [p])
        = team ++ [p]
    rw [if_neg (by omega), if_neg (by simp [hdup])]
  · intro team i p hp
    have := List.of_mem_filter hp
    simpa using this
  · intro team i p hp hne
    exact List.mem_filter.mpr ⟨hp, by simpa using hne⟩
  · intro team i h
    apply List.filter_eq_self.mpr
    intro p hp
    simpa using h p hp
  · intro team hr
    induction hr with
    | empty => simp
    | add t p ht ih =>
      match p with
      | none => exact ih
      | some q =>
        show (if 6 ≤ t.length then t
            else if (t.any fun r => r.id == q.id) = true then t else t ++ [q]).length ≤ 6
          ∧ ((if 6 ≤ t.length then t
            else if (t.any fun r => r.id == q.id) = true then t else t ++ [q]).map
              (fun p => p.id)).Nodup
        by_cases h6 : 6 ≤ t.length
        · rw [if_pos h6]; exact ih
        · rw [if_neg h6]
          by_cases hdup : t.any (fun r => r.id == q.id) = true
          · rw [if_pos hdup]; exact ih
          · rw [if_neg hdup]
            constructor
            · simp only [List.length_append, List.length_singleton]
              omega
            · rw [List.map_append]
              apply ih.2.append (by simp)
              intro a ha hb
              rcases List.mem_map.mp ha with ⟨r, hr, rfl⟩
              have hne : ∀ r ∈ t, ¬ r.id = q.id := by simpa using hdup
              exact hne r hr (by simpa using hb)
    | remove t i ht ih =>
      constructor
      · exact le_trans (List.length_filter_le _ _) ih.1
      · exact ih.2.sublist ((List.filter_sublist _).map _)
    | clear t ht => simp

theorem C6_roster_ops_witness :
    (addToTeam [⟨1, "bulbasaur", []⟩] (some ⟨1, "clone", []⟩) = [⟨1, "bulbasaur", []⟩])
    ∧ (addToTeam [] (some ⟨1, "bulbasaur", []⟩) = [⟨1, "bulbasaur", []⟩])
    ∧ (removeFromTeam [⟨1, "bulbasaur", []⟩] 2 = [⟨1, "bulbasaur", []⟩])
    ∧ (([] : List Pokemon).length ≤ 6 ∧ (([] : List Pokemon).map (fun p => p.id)).Nodup) :=
  ⟨C6_roster_ops.1 _ _ (Or.inr (by decide)),
    C6_roster_ops.2.1 _ _ (by decide) (by decide),
    C6_roster_ops.2.2.2.2.1 _ _ (by decide),
    C6_roster_ops.2.2.2.2.2 [] ReachableTeam.empty⟩

/-- C7: with no subject loaded both comparator sets are empty, and with an
empty roster both are empty for every subject. -/
theorem C7_empty_cases :
    (∀ team : List Pokemon, teamAdvantage team none = [] ∧ teamDisadvantage team none = [])
    ∧ (∀ subject : Option Pokemon,
        teamAdvantage [] subject = [] ∧ teamDisadvantage [] subject = []) := by
  constructor
  · intro team
    constructor
    · show team.filter (fun member => member.types.any (fun t =>
        (weaknessesOf (calculateDefensiveMatchups (currentTypesOf none))).contains
          t.type.name)) = []
      rw [show weaknessesOf (calculateDefensiveMatchups (currentTypesOf none)) = []
        from by decide]
      apply List.filter_eq_nil_iff.mpr
      intro m hm
      simp [List.contains]
    · show team.filter (fun member =>
        (getOffensiveStrengths (currentTypesOf none)).any (fun atkType =>
          (recGet (calculateDefensiveMatchups (member.types.map (fun t => t.type.name)))
            atkType).gtOne)) = []
      rw [show getOffensiveStrengths (currentTypesOf none) = [] from rfl]
      apply List.filter_eq_nil_iff.mpr
      intro m hm
      simp
  · intro subject
    exact ⟨rfl, rfl⟩

/-- C8: an identifier outside the canonical 18 (after lower-casing)
contributes neutrally: inserting it anywhere leaves both
`calculateDefensiveMatchups` and `getOffensiveStrengths` unchanged. -/
theorem C8_unknown_neutral :
    ∀ (u : String) (L1 L2 : List String), jsToLower u ∉ allTypes →
      calculateDefensiveMatchups (L1 ++ u :: L2) = calculateDefensiveMatchups (L1 ++ L2)
      ∧ getOffensiveStrengths (L1 ++ u :: L2) = getOffensiveStrengths (L1 ++ L2) := by
  intro u L1 L2 h
  constructor
  · unfold calculateDefensiveMatchups
    rw [List.foldl_append, List.foldl_append, List.foldl_cons, defStep_unknown _ h]
  · unfold getOffensiveStrengths
    rw [List.foldl_append, List.foldl_append, List.foldl_cons, offStep_unknown _ h]

theorem C8_unknown_neutral_witness :
    (jsToLower "shadow" ∉ allTypes)
    ∧ calculateDefensiveMatchups ["fire", "shadow"] = calculateDefensiveMatchups ["fire"]
    ∧ getOffensiveStrengths ["fire", "shadow"] = getOffensiveStrengths ["fire"] :=
  ⟨by decide, (C8_unknown_neutral "shadow" ["fire"] [] (by decide)).1,
    (C8_unknown_neutral "shadow" ["fire"] [] (by decide)).2⟩

/-- C9: `getPokemon` queries id 1 for every falsy query (the empty string
and the number 0), lower-cases string queries when building the request
URL, and fails with the single error `"Pokemon not found"` exactly when
the one remote response is not ok (no retry: the embedding performs one
fetch). -/
theorem C9_getPokemon :
    (∀ q : Query, q.isFalsy = true →
        pokemonRequestUrl q = "https://pokeapi.co/api/v2/pokemon/1")
    ∧ (∀ s : String, s ≠ "" →
        pokemonRequestUrl (Query.str s) = "https://pokeapi.co/api/v2/pokemon/" ++ jsToLower s)
    ∧ (∀ (fetchRemote : String → FetchResponse) (q : Query),
        getPokemon fetchRemote q = Except.error "Pokemon not found" ↔
          (fetchRemote (pokemonRequestUrl q)).ok = false)
    ∧ (∀ (fetchRemote : String → FetchResponse) (q : Query),
        (fetchRemote (pokemonRequestUrl q)).ok = true →
        getPokemon fetchRemote q = Except.ok (fetchRemote (pokemonRequestUrl q)).body) := by
  refine ⟨?_, ?_, ?_, ?_⟩
  · intro q h
    unfold pokemonRequestUrl
    rw [if_pos h]
    rfl
  · intro s h
    unfold pokemonRequestUrl
    rw [if_neg (by simpa [Query.isFalsy] using h)]
    rfl
  · intro fetchRemote q
    unfold getPokemon
    by_cases h : (fetchRemote (pokemonRequestUrl q)).ok = true
    · rw [if_pos h]
      simp [h]
    · rw [if_neg h]
      simp [Bool.not_eq_true] at h
      simp [h]
  · intro fetchRemote q h
    unfold getPokemon
    rw [if_pos h]

theorem C9_getPokemon_witness :
    ((Query.num 0).isFalsy = true)
    ∧ pokemonRequestUrl (Query.num 0) = "https://pokeapi.co/api/v2/pokemon/1"
    ∧ ("Pikachu" : String) ≠ ""
    ∧ pokemonRequestUrl (Query.str "Pikachu")
        = "https://pokeapi.co/api/v2/pokemon/" ++ jsToLower "Pikachu"
    ∧ getPokemon (fun _ => ⟨false, ⟨1, "missingno", []⟩⟩) (Query.num 0)
        = Except.error "Pokemon not found" :=
  ⟨by decide, C9_getPokemon.1 _ (by decide), by decide, C9_getPokemon.2.1 _ (by decide),
    (C9_getPokemon.2.2.1 (fun _ => ⟨false, ⟨1, "missingno", []⟩⟩) (Query.num 0)).mpr
      (by decide)⟩

end Pokedex
